import Mathlib

/-!
# Verification of `src/vs/base/common/buffer.ts`

A shallow embedding of the `VSBuffer` byte-buffer abstraction and its
helper functions, together with proofs of the specification's claims.

## Modelling conventions

* A JS `ArrayBuffer` (the raw byte storage) is modelled as `Store := Array Nat`,
  each cell holding a byte value `< 256`.
* A JS `Uint8Array` is a *view* into such a store: a `byteOffset` and a
  `byteLength`.  Operations that read take the store as an explicit argument;
  operations that write return the updated store.  Two views over the same
  store alias the same memory, exactly as two `Uint8Array`s over one
  `ArrayBuffer` do in JS.
* JS numbers appearing in the byte-level code are non-negative integers here
  (`Nat`); the coercions the JS engine performs are explicit:
  storing into a `Uint8Array` truncates to 8 bits (`% 256`), and the
  `>>> 8` in `writeUInt32BE` is `ToUint32` followed by a right shift,
  i.e. `(v % 2^32) / 2^8`.
* `Buffer.allocUnsafe` returns uninitialised memory; `alloc` therefore takes
  an arbitrary fill function `init` describing the garbage content, and
  claims about freshly allocated buffers quantify over it.
* Out-of-range typed-array reads yield `undefined` in JS; the model returns
  `0` there, and every claim constrains its offsets to be in bounds, so the
  conventional value is never relied upon.  Out-of-range typed-array stores
  are silently dropped in JS; the model drops them too.
-/

/-- The byte content of a JS `ArrayBuffer`. -/
abbrev Store := Array Nat

/-- A `Uint8Array`: a view (offset + length) into a backing `Store`. -/
structure U8 where
  byteOffset : Nat
  byteLength : Nat
  deriving Repr, DecidableEq

/-- Truncation to 8 bits performed by a `Uint8Array` element store. -/
def toUint8 (v : Nat) : Nat := v % 256

/-- The JS expression `v >>> 8`: `ToUint32` then logical shift right by 8. -/
def ushr8 (v : Nat) : Nat := (v % 2 ^ 32) / 2 ^ 8

/-- Element read `a[i]` on a `Uint8Array` view (in-bounds reads only are
used by the claims; out-of-range reads give the conventional value `0`). -/
def U8.get (σ : Store) (a : U8) (i : Nat) : Nat :=
  if i < a.byteLength then σ.getD (a.byteOffset + i) 0 else 0

/-- Element store `a[i] = v` on a `Uint8Array` view: truncates to 8 bits,
silently drops out-of-range stores. -/
def U8.set1 (σ : Store) (a : U8) (i v : Nat) : Store :=
  if i < a.byteLength then σ.setD (a.byteOffset + i) (toUint8 v) else σ

/-- `TypedArray.prototype.subarray(start, stop)`: a new view over the same
store, indices clamped to the view's range. -/
def U8.subarray (a : U8) (start stop : Nat) : U8 :=
  let s := min start a.byteLength
  let e := min stop a.byteLength
  { byteOffset := a.byteOffset + s, byteLength := e - s }

/-- Bulk copy `d.set(s, offset)` (`TypedArray.prototype.set`): copies the
bytes of the view `s` (read in the store `σs`) into the view `d` of the
store `σd`, starting at `offset`. -/
def U8.setArr (σd : Store) (d : U8) (σs : Store) (s : U8) (offset : Nat) : Store :=
  (List.range s.byteLength).foldl (fun σ i => U8.set1 σ d (offset + i) (U8.get σs s i)) σd

/-- The byte contents of a view, as a list. -/
def U8.bytes (σ : Store) (a : U8) : List Nat :=
  (List.range a.byteLength).map (fun i => U8.get σ a i)

/-- The view is contained in its backing store. -/
def U8.WF (σ : Store) (a : U8) : Prop := a.byteOffset + a.byteLength ≤ σ.size

instance (σ : Store) (a : U8) : Decidable (U8.WF σ a) := by
  unfold U8.WF; infer_instance

/-- `readUInt32BE(source, offset)` from `buffer.ts`. -/
def readUInt32BE (σ : Store) (source : U8) (offset : Nat) : Nat :=
  U8.get σ source offset * 2 ^ 24
  + U8.get σ source (offset + 1) * 2 ^ 16
  + U8.get σ source (offset + 2) * 2 ^ 8
  + U8.get σ source (offset + 3)

/-- `writeUInt32BE(destination, value, offset)` from `buffer.ts`:
stores the low byte at `offset+3`, shifting `value` right by 8 bits
(`>>> 8`) between the four single-byte stores. -/
def writeUInt32BE (σ : Store) (destination : U8) (value offset : Nat) : Store :=
  let σ1 := U8.set1 σ destination (offset + 3) value
  let value1 := ushr8 value
  let σ2 := U8.set1 σ1 destination (offset + 2) value1
  let value2 := ushr8 value1
  let σ3 := U8.set1 σ2 destination (offset + 1) value2
  let value3 := ushr8 value2
  U8.set1 σ3 destination offset value3

/-- `readUInt8(source, offset)` from `buffer.ts`. -/
def readUInt8 (σ : Store) (source : U8) (offset : Nat) : Nat :=
  U8.get σ source offset

/-- `writeUInt8(destination, value, offset)` from `buffer.ts`. -/
def writeUInt8 (σ : Store) (destination : U8) (value offset : Nat) : Store :=
  U8.set1 σ destination offset value

/-- The `VSBuffer` class: a handle holding its `Uint8Array` and the cached
`byteLength`. -/
structure VSBuffer where
  buffer : U8
  byteLength : Nat
  deriving Repr, DecidableEq

/-- The private `VSBuffer` constructor: caches `byteLength` from the view. -/
def VSBuffer.new (buffer : U8) : VSBuffer :=
  { buffer := buffer, byteLength := buffer.byteLength }

/-- `VSBuffer.alloc(byteLength)`: a fresh store of `byteLength` bytes with
unspecified content (`Buffer.allocUnsafe`); the garbage content is described
by the arbitrary fill function `init`. -/
def VSBuffer.alloc (byteLength : Nat) (init : Nat → Nat) : Store × VSBuffer :=
  (Array.ofFn (fun i : Fin byteLength => toUint8 (init i.val)),
   VSBuffer.new { byteOffset := 0, byteLength := byteLength })

/-- `VSBuffer.wrap(actual)`: wraps an existing `Uint8Array` zero-copy (the
`Buffer.from(actual.buffer, actual.byteOffset, actual.byteLength)` re-wrap
preserves offset and length over the same memory, so it is the identity on
the view). -/
def VSBuffer.wrap (actual : U8) : VSBuffer :=
  VSBuffer.new actual

/-- `VSBuffer.prototype.slice(start, stop)`: `subarray`, not a copy. -/
def VSBuffer.slice (b : VSBuffer) (start stop : Nat) : VSBuffer :=
  VSBuffer.new (b.buffer.subarray start stop)

/-- `VSBuffer.prototype.set(array, offset)`: bulk copy into this buffer's
backing store. -/
def VSBuffer.set (σd : Store) (bthis : VSBuffer) (σs : Store) (array : VSBuffer)
    (offset : Nat) : Store :=
  U8.setArr σd bthis.buffer σs array.buffer offset

/-- `VSBuffer.concat(buffers, totalLength?)`: computes the total length when
omitted, allocates (uninitialised, content `init`), then copies each input at
the running offset.  Each input buffer carries its own backing store. -/
def VSBuffer.concat (buffers : List (Store × VSBuffer)) (totalLength? : Option Nat)
    (init : Nat → Nat) : Store × VSBuffer :=
  let totalLength := match totalLength? with
    | none => buffers.foldl (fun acc b => acc + b.2.byteLength) 0
    | some t => t
  let (σ0, ret) := VSBuffer.alloc totalLength init
  let final := buffers.foldl
    (fun (p : Store × Nat) b =>
      (VSBuffer.set p.1 ret b.1 b.2 p.2, p.2 + b.2.byteLength)) (σ0, 0)
  (final.1, ret)

/-- The well-formedness every `VSBuffer` produced by the class enjoys:
its view fits its store and the cached `byteLength` matches the view. -/
def VSBuffer.WF (σ : Store) (b : VSBuffer) : Prop :=
  U8.WF σ b.buffer ∧ b.byteLength = b.buffer.byteLength

instance (σ : Store) (b : VSBuffer) : Decidable (VSBuffer.WF σ b) := by
  unfold VSBuffer.WF; infer_instance

/-! ## The string codec

`fromString` / `toString` select among three encoding facilities: Node
`Buffer`, `TextEncoder`/`TextDecoder`, and the manual fallback
`strings.encodeUTF8` / `strings.decodeUTF8`.  None of the three encoder
bodies is part of the sources here (two are platform intrinsics, the manual
fallback lives in `vs/base/common/strings`), so all three are modelled from
the spec: each produces the UTF-8 encoding of the input, and all three are
byte-identical on every input.  A JS string is modelled as its list of
Unicode scalar values. -/

/-- A Unicode scalar value: any code point outside the surrogate range. -/
def IsScalar (c : Nat) : Prop := c < 0xD800 ∨ (0xE000 ≤ c ∧ c < 0x110000)

instance (c : Nat) : Decidable (IsScalar c) := by
  unfold IsScalar; infer_instance

/-- Modelled from the spec: the UTF-8 encoding of one scalar value
(1 to 4 bytes, big pieces first). -/
def utf8EncodeChar (c : Nat) : List Nat :=
  if c < 0x80 then [c]
  else if c < 0x800 then [0xC0 + c / 64, 0x80 + c % 64]
  else if c < 0x10000 then [0xE0 + c / 4096, 0x80 + c / 64 % 64, 0x80 + c % 64]
  else [0xF0 + c / 262144, 0x80 + c / 4096 % 64, 0x80 + c / 64 % 64, 0x80 + c % 64]

/-- Modelled from the spec: UTF-8 encoding of a string (scalar sequence). -/
def utf8Encode (s : List Nat) : List Nat := (s.map utf8EncodeChar).flatten

/-- Lower bound of the second byte of a 3-byte sequence (0xE0 forbids
overlong encodings). -/
def utf8Lo1 (b : Nat) : Nat := if b = 0xE0 then 0xA0 else 0x80

/-- Upper bound of the second byte of a 3-byte sequence (0xED forbids
surrogates). -/
def utf8Hi1 (b : Nat) : Nat := if b = 0xED then 0x9F else 0xBF

/-- Lower bound of the second byte of a 4-byte sequence (0xF0 forbids
overlong encodings). -/
def utf8Lo2 (b : Nat) : Nat := if b = 0xF0 then 0x90 else 0x80

/-- Upper bound of the second byte of a 4-byte sequence (0xF4 caps the
code point at 0x10FFFF). -/
def utf8Hi2 (b : Nat) : Nat := if b = 0xF4 then 0x8F else 0xBF

/-- Modelled from the spec: lenient UTF-8 decoding — every malformed lead
byte, continuation byte, overlong encoding or truncated sequence yields the
replacement character `0xFFFD` instead of an error, per the decoding
facility's standard behavior. -/
def utf8Decode (l : List Nat) : List Nat :=
  match l with
  | [] => []
  | b :: rest =>
    if b < 0x80 then b :: utf8Decode rest
    else if 0xC2 ≤ b ∧ b ≤ 0xDF
        ∧ 1 ≤ rest.length
        ∧ 0x80 ≤ rest.getD 0 0 ∧ rest.getD 0 0 ≤ 0xBF then
      ((b - 0xC0) * 64 + (rest.getD 0 0 - 0x80)) :: utf8Decode (rest.drop 1)
    else if 0xE0 ≤ b ∧ b ≤ 0xEF
        ∧ 2 ≤ rest.length
        ∧ utf8Lo1 b ≤ rest.getD 0 0 ∧ rest.getD 0 0 ≤ utf8Hi1 b
        ∧ 0x80 ≤ rest.getD 1 0 ∧ rest.getD 1 0 ≤ 0xBF then
      ((b - 0xE0) * 4096 + (rest.getD 0 0 - 0x80) * 64 + (rest.getD 1 0 - 0x80))
        :: utf8Decode (rest.drop 2)
    else if 0xF0 ≤ b ∧ b ≤ 0xF4
        ∧ 3 ≤ rest.length
        ∧ utf8Lo2 b ≤ rest.getD 0 0 ∧ rest.getD 0 0 ≤ utf8Hi2 b
        ∧ 0x80 ≤ rest.getD 1 0 ∧ rest.getD 1 0 ≤ 0xBF
        ∧ 0x80 ≤ rest.getD 2 0 ∧ rest.getD 2 0 ≤ 0xBF then
      ((b - 0xF0) * 262144 + (rest.getD 0 0 - 0x80) * 4096
          + (rest.getD 1 0 - 0x80) * 64 + (rest.getD 2 0 - 0x80))
        :: utf8Decode (rest.drop 3)
    else 0xFFFD :: utf8Decode rest
termination_by l.length
decreasing_by
  all_goals simp only [List.length_cons, List.length_drop]
  all_goals omega

/-- The three environment flags probed at module load
(`hasBuffer`, `hasTextEncoder`, `hasTextDecoder`). -/
structure TextEnv where
  hasBuffer : Bool
  hasTextEncoder : Bool
  hasTextDecoder : Bool
  deriving Repr, DecidableEq

/-- Modelled from the spec: Node `Buffer.from(string)` produces the UTF-8
bytes of the string. -/
def bufferFromStringBytes (source : List Nat) : List Nat := utf8Encode source

/-- Modelled from the spec: `TextEncoder.encode` produces the UTF-8 bytes
of the string, byte-identical to the other two facilities. -/
def textEncoderEncode (source : List Nat) : List Nat := utf8Encode source

/-- Modelled from the spec: `strings.encodeUTF8` (the manual fallback in
`vs/base/common/strings`, not among the sources) produces the UTF-8 bytes of
the string, byte-identical to the other two facilities. -/
def stringsEncodeUTF8 (source : List Nat) : List Nat := utf8Encode source

/-- Modelled from the spec: Node `buffer.toString()` decodes UTF-8
leniently (replacement character on malformed input). -/
def bufferToStringUtf8 (bytes : List Nat) : List Nat := utf8Decode bytes

/-- Modelled from the spec: `TextDecoder.decode`, same lenient UTF-8
decoding. -/
def textDecoderDecode (bytes : List Nat) : List Nat := utf8Decode bytes

/-- Modelled from the spec: `strings.decodeUTF8` (manual fallback, not
among the sources), same lenient UTF-8 decoding. -/
def stringsDecodeUTF8 (bytes : List Nat) : List Nat := utf8Decode bytes

/-- `VSBuffer.fromString(source)`: picks the encoding facility in priority
order (Buffer, then TextEncoder, then the manual fallback) and wraps the
encoded bytes in a fresh store. -/
def VSBuffer.fromString (env : TextEnv) (source : List Nat) : Store × VSBuffer :=
  if env.hasBuffer then
    ((bufferFromStringBytes source).toArray,
     VSBuffer.new { byteOffset := 0, byteLength := (bufferFromStringBytes source).length })
  else if env.hasTextEncoder then
    ((textEncoderEncode source).toArray,
     VSBuffer.new { byteOffset := 0, byteLength := (textEncoderEncode source).length })
  else
    ((stringsEncodeUTF8 source).toArray,
     VSBuffer.new { byteOffset := 0, byteLength := (stringsEncodeUTF8 source).length })

/-- `VSBuffer.prototype.toString()`: picks the decoding facility in priority
order (Buffer, then TextDecoder, then the manual fallback) and decodes this
buffer's bytes. -/
def VSBuffer.toString (env : TextEnv) (σ : Store) (b : VSBuffer) : List Nat :=
  if env.hasBuffer then bufferToStringUtf8 (U8.bytes σ b.buffer)
  else if env.hasTextDecoder then textDecoderDecode (U8.bytes σ b.buffer)
  else stringsDecodeUTF8 (U8.bytes σ b.buffer)

/-! ## The stream collaborator

`streamToBuffer` delegates to `streams.consumeStream`, whose body lives in
`vs/base/common/stream` and is not among the sources; it is modelled from
the spec: a push-based stream delivers finitely many chunks and then exactly
one terminal signal (end or error); consuming it resolves with the reduced
chunks on end and rejects on error, surfacing no partial result. -/

/-- Terminal signal of a push-based stream. -/
inductive StreamTerminal where
  | ended : StreamTerminal
  | errored : StreamTerminal
  deriving Repr, DecidableEq

/-- Modelled from the spec: one complete run of a push-based stream — the
chunks delivered in order, then the terminal signal. -/
structure PushStream where
  chunks : List (Store × VSBuffer)
  terminal : StreamTerminal

/-- Modelled from the spec: `streams.consumeStream(stream, reducer)` —
a promise that resolves with `reducer(chunks)` when the stream ends and
rejects when it errors. -/
def consumeStream (stream : PushStream)
    (reducer : List (Store × VSBuffer) → Store × VSBuffer) :
    Except Unit (Store × VSBuffer) :=
  match stream.terminal with
  | .ended => .ok (reducer stream.chunks)
  | .errored => .error ()

/-- `streamToBuffer(stream)`: consume the stream, concatenating the chunks
with `VSBuffer.concat` (fresh allocation content `init`). -/
def streamToBuffer (stream : PushStream) (init : Nat → Nat) :
    Except Unit (Store × VSBuffer) :=
  consumeStream stream (fun chunks => VSBuffer.concat chunks none init)

/-! ## Observation helpers used by the statements -/

/-- The `n` bytes of a view starting at index `off` (observation helper). -/
def U8.seg (σ : Store) (a : U8) (off n : Nat) : List Nat :=
  (List.range n).map (fun k => U8.get σ a (off + k))

/-- The fold inside `VSBuffer.concat`, with the destination view made
explicit (definitionally equal to the source's loop, see
`VSBuffer.concat_eq_concatFold`). -/
def concatFold (d : U8) (bs : List (Store × VSBuffer)) (σ0 : Store) (off : Nat) :
    Store × Nat :=
  bs.foldl (fun p b => (U8.setArr p.1 d b.1 b.2.buffer p.2, p.2 + b.2.byteLength)) (σ0, off)

/-! ## Basic lemmas about the store/view model -/

theorem U8.set1_size (σ : Store) (a : U8) (i v : Nat) :
    (U8.set1 σ a i v).size = σ.size := by
  unfold U8.set1
  split
  · exact Array.size_setD σ _ _
  · rfl

theorem U8.setArr_size (σd : Store) (d : U8) (σs : Store) (s : U8) (offset : Nat) :
    (U8.setArr σd d σs s offset).size = σd.size := by
  unfold U8.setArr
  induction (List.range s.byteLength) generalizing σd with
  | nil => rfl
  | cons x xs ih => rw [List.foldl_cons, ih, U8.set1_size]

theorem writeUInt32BE_size (σ : Store) (d : U8) (v off : Nat) :
    (writeUInt32BE σ d v off).size = σ.size := by
  unfold writeUInt32BE
  simp [U8.set1_size]

theorem writeUInt8_size (σ : Store) (d : U8) (v off : Nat) :
    (writeUInt8 σ d v off).size = σ.size := by
  unfold writeUInt8
  simp [U8.set1_size]

/-- Pointwise description of `Array.setD` through `Array.getD`. -/
theorem store_getD_setD (a : Store) (i j v : Nat) :
    (a.setD i v).getD j 0 = if j = i ∧ i < a.size then v else a.getD j 0 := by
  unfold Array.setD
  split
  case isTrue h =>
    by_cases hji : j = i
    · subst hji
      rw [if_pos ⟨rfl, h⟩, Array.getD_eq_get?,
        Array.getElem?_set_eq a ⟨j, h⟩ v, Option.getD_some]
    · rw [if_neg (fun hc => hji hc.1), Array.getD_eq_get?, Array.getD_eq_get?,
        Array.getElem?_set_ne a ⟨i, h⟩ v (fun hc => hji hc.symm)]
  case isFalse h =>
    rw [if_neg (fun hc => h hc.2)]

/-- Reading an index just stored (in-bounds): yields the truncated value. -/
theorem U8.get_set1_same (σ : Store) (a : U8) (i v : Nat)
    (hwf : U8.WF σ a) (hi : i < a.byteLength) :
    U8.get (U8.set1 σ a i v) a i = toUint8 v := by
  unfold U8.get U8.set1
  rw [if_pos hi, if_pos hi, store_getD_setD,
    if_pos ⟨rfl, by unfold U8.WF at hwf; omega⟩]

/-- Reading a different index after a store: unchanged. -/
theorem U8.get_set1_other (σ : Store) (a : U8) (i j v : Nat) (hne : i ≠ j) :
    U8.get (U8.set1 σ a i v) a j = U8.get σ a j := by
  unfold U8.get U8.set1
  split
  case isTrue hi =>
    split
    case isTrue hj =>
      rw [store_getD_setD, if_neg]
      intro hc
      exact hne (by omega)
    case isFalse => rfl
  case isFalse => rfl

/-- A fold of single-byte stores never resizes the store. -/
theorem U8.foldl_set1_size (d : U8) (idx val : Nat → Nat) (l : List Nat) (σd : Store) :
    (l.foldl (fun σ i => U8.set1 σ d (idx i) (val i)) σd).size = σd.size := by
  induction l generalizing σd with
  | nil => rfl
  | cons x xs ih => rw [List.foldl_cons, ih, U8.set1_size]

/-- `U8.WF` only depends on the store's size, which `set1` preserves. -/
theorem U8.WF_foldl_set1 (σd : Store) (a d : U8) (idx val : Nat → Nat) (l : List Nat)
    (hwf : U8.WF σd a) :
    U8.WF (l.foldl (fun σ i => U8.set1 σ d (idx i) (val i)) σd) a := by
  unfold U8.WF at hwf ⊢
  rw [U8.foldl_set1_size]
  exact hwf

/-- Pointwise description of the byte-copy fold underlying `U8.setArr`:
bytes of `d` in `[offset, offset + n)` become the (truncated) bytes of the
source, everything else is untouched. -/
theorem U8.get_foldl_copy (σd : Store) (d : U8) (f : Nat → Nat) (offset n : Nat)
    (hwf : U8.WF σd d) (hfit : offset + n ≤ d.byteLength) (j : Nat) :
    U8.get ((List.range n).foldl (fun σ i => U8.set1 σ d (offset + i) (f i)) σd) d j =
      if offset ≤ j ∧ j < offset + n then toUint8 (f (j - offset))
      else U8.get σd d j := by
  induction n with
  | zero =>
    rw [if_neg (by omega)]
    rfl
  | succ n ih =>
    rw [List.range_succ, List.foldl_append, List.foldl_cons, List.foldl_nil]
    by_cases hj : j = offset + n
    · subst hj
      rw [U8.get_set1_same _ _ _ _ (U8.WF_foldl_set1 σd d d _ _ _ hwf) (by omega)]
      have harg : offset + n - offset = n := by omega
      rw [if_pos (show offset ≤ offset + n ∧ offset + n < offset + (n + 1) by omega), harg]
    · rw [U8.get_set1_other _ _ _ _ _ (fun hc => hj hc.symm),
        ih (by omega)]
      by_cases hin : offset ≤ j ∧ j < offset + n
      · rw [if_pos hin,
          if_pos (show offset ≤ j ∧ j < offset + (n + 1) by omega)]
      · rw [if_neg hin,
          if_neg (show ¬(offset ≤ j ∧ j < offset + (n + 1)) by omega)]

/-- Pointwise description of `U8.setArr` (bulk `set`). -/
theorem U8.get_setArr (σd : Store) (d : U8) (σs : Store) (s : U8) (offset : Nat)
    (hwf : U8.WF σd d) (hfit : offset + s.byteLength ≤ d.byteLength) (j : Nat) :
    U8.get (U8.setArr σd d σs s offset) d j =
      if offset ≤ j ∧ j < offset + s.byteLength then toUint8 (U8.get σs s (j - offset))
      else U8.get σd d j := by
  unfold U8.setArr
  exact U8.get_foldl_copy σd d _ offset s.byteLength hwf hfit j

/-- Every store produced by the class holds bytes: all cells are `< 256`. -/
def Store.Bytes (σ : Store) : Prop := ∀ x ∈ σ.toList, x < 256

instance (σ : Store) : Decidable (Store.Bytes σ) := by
  unfold Store.Bytes; infer_instance

theorem Store.Bytes.getD_lt (σ : Store) (h : Store.Bytes σ) (i : Nat) :
    σ.getD i 0 < 256 := by
  rw [Array.getD_eq_get?]
  cases hc : σ[i]? with
  | none => simp
  | some x =>
    have : x ∈ σ.toList := by
      rw [Array.getElem?_eq_getElem?_toList] at hc
      exact List.getElem?_mem hc
    simpa using h x this

theorem U8.get_lt (σ : Store) (a : U8) (i : Nat) (h : Store.Bytes σ) :
    U8.get σ a i < 256 := by
  unfold U8.get
  split
  · exact Store.Bytes.getD_lt σ h _
  · omega

/-! ## Bytes of `writeUInt32BE` -/

/-- The four bytes stored by `writeUInt32BE`, and the frame: everything
outside `[offset, offset+4)` is untouched. -/
theorem writeUInt32BE_get (σ : Store) (d : U8) (v off : Nat)
    (hwf : U8.WF σ d) (hfit : off + 4 ≤ d.byteLength) :
    U8.get (writeUInt32BE σ d v off) d off = toUint8 (ushr8 (ushr8 (ushr8 v)))
    ∧ U8.get (writeUInt32BE σ d v off) d (off + 1) = toUint8 (ushr8 (ushr8 v))
    ∧ U8.get (writeUInt32BE σ d v off) d (off + 2) = toUint8 (ushr8 v)
    ∧ U8.get (writeUInt32BE σ d v off) d (off + 3) = toUint8 v
    ∧ ∀ j, (j < off ∨ off + 4 ≤ j) →
        U8.get (writeUInt32BE σ d v off) d j = U8.get σ d j := by
  have hwf1 : ∀ σ0 i v0, U8.WF σ0 d → U8.WF (U8.set1 σ0 d i v0) d := by
    intro σ0 i v0 h
    unfold U8.WF at h ⊢
    rw [U8.set1_size]
    exact h
  unfold writeUInt32BE
  refine ⟨?_, ?_, ?_, ?_, ?_⟩
  · rw [U8.get_set1_same _ _ _ _ (hwf1 _ _ _ (hwf1 _ _ _ (hwf1 _ _ _ hwf))) (by omega)]
  · rw [U8.get_set1_other _ _ _ _ _ (by omega),
      U8.get_set1_same _ _ _ _ (hwf1 _ _ _ (hwf1 _ _ _ hwf)) (by omega)]
  · rw [U8.get_set1_other _ _ _ _ _ (by omega), U8.get_set1_other _ _ _ _ _ (by omega),
      U8.get_set1_same _ _ _ _ (hwf1 _ _ _ hwf) (by omega)]
  · rw [U8.get_set1_other _ _ _ _ _ (by omega), U8.get_set1_other _ _ _ _ _ (by omega),
      U8.get_set1_other _ _ _ _ _ (by omega),
      U8.get_set1_same _ _ _ _ hwf (by omega)]
  · intro j hj
    rw [U8.get_set1_other _ _ _ _ _ (by omega), U8.get_set1_other _ _ _ _ _ (by omega),
      U8.get_set1_other _ _ _ _ _ (by omega), U8.get_set1_other _ _ _ _ _ (by omega)]

/-! ## Claims about the integer codecs

The `VSBuffer` methods `readUInt32BE` / `writeUInt32BE` / `readUInt8` /
`writeUInt8` delegate to the module-level functions on `this.buffer`
(`readUInt32BE(this.buffer, offset)` and so on); the claims below are stated
through those bodies applied to `b.buffer`. -/

/-- Write-then-read of the 4-byte big-endian codec recovers `value mod 2^32`. -/
theorem readUInt32BE_writeUInt32BE (σ : Store) (d : U8) (v off : Nat)
    (hwf : U8.WF σ d) (hfit : off + 4 ≤ d.byteLength) :
    readUInt32BE (writeUInt32BE σ d v off) d off = v % 2 ^ 32 := by
  obtain ⟨h0, h1, h2, h3, _⟩ := writeUInt32BE_get σ d v off hwf hfit
  unfold readUInt32BE
  rw [h0, h1, h2, h3]
  unfold toUint8 ushr8
  norm_num
  omega

/-- C3: for every uint32 value `v < 2^32` and every well-formed buffer of at
least 4 bytes, `writeUInt32BE(v, 0)` followed by `readUInt32BE(0)` returns
exactly `v`. -/
theorem C3_uint32_roundtrip_at_zero (σ : Store) (b : VSBuffer) (v : Nat)
    (hwf : VSBuffer.WF σ b) (hv : v < 2 ^ 32) (h4 : 4 ≤ b.byteLength) :
    readUInt32BE (writeUInt32BE σ b.buffer v 0) b.buffer 0 = v := by
  rw [readUInt32BE_writeUInt32BE σ b.buffer v 0 hwf.1 (by rw [← hwf.2]; omega)]
  exact Nat.mod_eq_of_lt hv

/-- Witness for C3 at a concrete input: a 4-byte buffer and `v = 0xCAFEBABE`. -/
theorem C3_uint32_roundtrip_at_zero_witness :
    readUInt32BE
      (writeUInt32BE ((VSBuffer.alloc 4 (fun _ => 0)).1)
        ((VSBuffer.alloc 4 (fun _ => 0)).2).buffer 0xCAFEBABE 0)
      ((VSBuffer.alloc 4 (fun _ => 0)).2).buffer 0 = 0xCAFEBABE :=
  C3_uint32_roundtrip_at_zero _ _ _ (by decide) (by norm_num) (by decide)

/-- C5: for every non-negative `v`, also `≥ 2^32`, `writeUInt32BE(v, offset)`
stores only the low 32 bits: reading back yields `v mod 2^32`. -/
theorem C5_uint32_truncation (σ : Store) (b : VSBuffer) (v off : Nat)
    (hwf : VSBuffer.WF σ b) (hfit : off + 4 ≤ b.byteLength) :
    readUInt32BE (writeUInt32BE σ b.buffer v off) b.buffer off = v % 2 ^ 32 :=
  readUInt32BE_writeUInt32BE σ b.buffer v off hwf.1 (by rw [← hwf.2]; omega)

/-- Witness for C5 at a concrete input: `v = 2^32 + 5` reads back as `5`. -/
theorem C5_uint32_truncation_witness :
    readUInt32BE
      (writeUInt32BE ((VSBuffer.alloc 4 (fun _ => 0)).1)
        ((VSBuffer.alloc 4 (fun _ => 0)).2).buffer (2 ^ 32 + 5) 0)
      ((VSBuffer.alloc 4 (fun _ => 0)).2).buffer 0 = (2 ^ 32 + 5) % 2 ^ 32 :=
  C5_uint32_truncation _ _ _ _ (by decide) (by decide)

/-- C4: after `alloc(4)` (whatever the uninitialised content `init`) and
`writeUInt32BE(0x01020304, 0)`, the bytes are `[0x01, 0x02, 0x03, 0x04]`:
most significant byte first. -/
theorem C4_big_endian_layout (init : Nat → Nat) :
    U8.bytes
      (writeUInt32BE (VSBuffer.alloc 4 init).1 ((VSBuffer.alloc 4 init).2).buffer
        0x01020304 0)
      ((VSBuffer.alloc 4 init).2).buffer = [0x01, 0x02, 0x03, 0x04] := by
  have hwf : U8.WF (VSBuffer.alloc 4 init).1 ((VSBuffer.alloc 4 init).2).buffer := by
    unfold VSBuffer.alloc VSBuffer.new U8.WF
    simp
  obtain ⟨h0, h1, h2, h3, _⟩ :=
    writeUInt32BE_get (VSBuffer.alloc 4 init).1 ((VSBuffer.alloc 4 init).2).buffer
      0x01020304 0 hwf (by simp [VSBuffer.alloc, VSBuffer.new])
  norm_num at h0 h1 h2 h3
  unfold U8.bytes
  rw [show ((VSBuffer.alloc 4 init).2).buffer.byteLength = 4 from rfl,
    show List.range 4 = [0, 1, 2, 3] from rfl]
  simp only [List.map_cons, List.map_nil]
  rw [h0, h1, h2, h3]
  rfl

/-- C7: single-byte codec: `writeUInt8(v, offset)` then `readUInt8(offset)`
returns the byte `v mod 256`; in particular it returns `v` itself whenever
`v ≤ 255`. -/
theorem C7_uint8_roundtrip (σ : Store) (b : VSBuffer) (v off : Nat)
    (hwf : VSBuffer.WF σ b) (hoff : off < b.byteLength) :
    readUInt8 (writeUInt8 σ b.buffer v off) b.buffer off = v % 256
    ∧ (v ≤ 255 → readUInt8 (writeUInt8 σ b.buffer v off) b.buffer off = v) := by
  have hlt : off < b.buffer.byteLength := by rw [← hwf.2]; omega
  have h := U8.get_set1_same σ b.buffer off v hwf.1 hlt
  unfold readUInt8 writeUInt8
  unfold toUint8 at h
  exact ⟨h, fun hv => by rw [h]; omega⟩

/-- Witness for C7 at a concrete input: write `300` into a 1-byte buffer,
read back `44 = 300 mod 256`; write `7`, read back `7`. -/
theorem C7_uint8_roundtrip_witness :
    readUInt8
      (writeUInt8 ((VSBuffer.alloc 1 (fun _ => 0)).1)
        ((VSBuffer.alloc 1 (fun _ => 0)).2).buffer 300 0)
      ((VSBuffer.alloc 1 (fun _ => 0)).2).buffer 0 = 300 % 256 :=
  (C7_uint8_roundtrip _ _ 300 0 (by decide) (by decide)).1

/-! ## The string round-trip -/

set_option maxRecDepth 8000 in
/-- Decoding the UTF-8 encoding of one scalar value in front of any byte
tail recovers the scalar and leaves the tail to be decoded. -/
theorem utf8Decode_encodeChar_append (c : Nat) (rest : List Nat) (hc : IsScalar c) :
    utf8Decode (utf8EncodeChar c ++ rest) = c :: utf8Decode rest := by
  unfold IsScalar at hc
  unfold utf8EncodeChar
  by_cases h1 : c < 0x80
  · rw [if_pos h1]
    show utf8Decode (c :: rest) = c :: utf8Decode rest
    rw [utf8Decode, if_pos h1]
  · rw [if_neg h1]
    by_cases h2 : c < 0x800
    · rw [if_pos h2]
      show utf8Decode ((0xC0 + c / 64) :: (0x80 + c % 64) :: rest) = c :: utf8Decode rest
      rw [utf8Decode]
      simp only [List.getD_cons_zero, List.getD_cons_succ, List.length_cons,
        List.drop_succ_cons, List.drop_zero]
      rw [if_neg (by omega),
        if_pos (⟨by omega, by omega, by omega, by omega, by omega⟩ :
          0xC2 ≤ 0xC0 + c / 64 ∧ 0xC0 + c / 64 ≤ 0xDF ∧ 1 ≤ rest.length + 1
          ∧ 0x80 ≤ 0x80 + c % 64 ∧ 0x80 + c % 64 ≤ 0xBF)]
      congr 1
      omega
    · rw [if_neg h2]
      by_cases h3 : c < 0x10000
      · rw [if_pos h3]
        show utf8Decode ((0xE0 + c / 4096) :: (0x80 + c / 64 % 64) :: (0x80 + c % 64) :: rest)
            = c :: utf8Decode rest
        have hlo : utf8Lo1 (0xE0 + c / 4096) ≤ 0x80 + c / 64 % 64 := by
          unfold utf8Lo1
          split
          · omega
          · omega
        have hhi : 0x80 + c / 64 % 64 ≤ utf8Hi1 (0xE0 + c / 4096) := by
          unfold utf8Hi1
          split
          · omega
          · omega
        rw [utf8Decode]
        simp only [List.getD_cons_zero, List.getD_cons_succ, List.length_cons,
          List.drop_succ_cons, List.drop_zero]
        rw [if_neg (by omega), if_neg (by omega),
          if_pos (⟨by omega, by omega, by omega, hlo, hhi, by omega, by omega⟩ :
            0xE0 ≤ 0xE0 + c / 4096 ∧ 0xE0 + c / 4096 ≤ 0xEF ∧ 2 ≤ rest.length + 1 + 1
            ∧ utf8Lo1 (0xE0 + c / 4096) ≤ 0x80 + c / 64 % 64
            ∧ 0x80 + c / 64 % 64 ≤ utf8Hi1 (0xE0 + c / 4096)
            ∧ 0x80 ≤ 0x80 + c % 64 ∧ 0x80 + c % 64 ≤ 0xBF)]
        congr 1
        omega
      · rw [if_neg h3]
        show utf8Decode ((0xF0 + c / 262144) :: (0x80 + c / 4096 % 64)
            :: (0x80 + c / 64 % 64) :: (0x80 + c % 64) :: rest) = c :: utf8Decode rest
        have hlo : utf8Lo2 (0xF0 + c / 262144) ≤ 0x80 + c / 4096 % 64 := by
          unfold utf8Lo2
          split
          · omega
          · omega
        have hhi : 0x80 + c / 4096 % 64 ≤ utf8Hi2 (0xF0 + c / 262144) := by
          unfold utf8Hi2
          split
          · omega
          · omega
        rw [utf8Decode]
        simp only [List.getD_cons_zero, List.getD_cons_succ, List.length_cons,
          List.drop_succ_cons, List.drop_zero]
        rw [if_neg (by omega), if_neg (by omega), if_neg (by omega),
          if_pos (⟨by omega, by omega, by omega, hlo, hhi, by omega, by omega, by omega,
              by omega⟩ :
            0xF0 ≤ 0xF0 + c / 262144 ∧ 0xF0 + c / 262144 ≤ 0xF4
            ∧ 3 ≤ rest.length + 1 + 1 + 1
            ∧ utf8Lo2 (0xF0 + c / 262144) ≤ 0x80 + c / 4096 % 64
            ∧ 0x80 + c / 4096 % 64 ≤ utf8Hi2 (0xF0 + c / 262144)
            ∧ 0x80 ≤ 0x80 + c / 64 % 64 ∧ 0x80 + c / 64 % 64 ≤ 0xBF
            ∧ 0x80 ≤ 0x80 + c % 64 ∧ 0x80 + c % 64 ≤ 0xBF)]
        congr 1
        omega

/-- Decoding inverts encoding on every string of Unicode scalar values. -/
theorem utf8Decode_encode (s : List Nat) (hs : ∀ c ∈ s, IsScalar c) :
    utf8Decode (utf8Encode s) = s := by
  induction s with
  | nil => simp [utf8Encode, utf8Decode]
  | cons c cs ih =>
    unfold utf8Encode
    simp only [List.map_cons, List.flatten_cons]
    rw [utf8Decode_encodeChar_append c _ (hs c (by simp))]
    unfold utf8Encode at ih
    rw [ih (fun x hx => hs x (by simp [hx]))]

/-- A fresh store built from a byte list reads back as that list. -/
theorem U8.bytes_toArray (l : List Nat) :
    U8.bytes l.toArray { byteOffset := 0, byteLength := l.length } = l := by
  unfold U8.bytes U8.get
  apply List.ext_getElem (by simp)
  intro i h1 h2
  simp only [List.getElem_map, List.getElem_range]
  rw [if_pos (by simpa using h2)]
  simp only [Nat.zero_add, Array.getD_eq_get?]
  rw [Array.getElem?_eq_getElem?_toList]
  simp [List.getElem?_eq_getElem h2]

/-- C1: for every string `s` of Unicode scalar values, in every environment
(whichever of the three encoding-strategy paths is taken),
`fromString(s).toString()` returns `s`, and the three encoding facilities
produce byte-identical encodings. -/
theorem C1_fromString_toString_roundtrip (env : TextEnv) (s : List Nat)
    (hs : ∀ c ∈ s, IsScalar c) :
    VSBuffer.toString env (VSBuffer.fromString env s).1 (VSBuffer.fromString env s).2 = s
    ∧ bufferFromStringBytes s = textEncoderEncode s
    ∧ textEncoderEncode s = stringsEncodeUTF8 s := by
  refine ⟨?_, rfl, rfl⟩
  unfold VSBuffer.fromString VSBuffer.toString bufferFromStringBytes textEncoderEncode
    stringsEncodeUTF8 bufferToStringUtf8 textDecoderDecode stringsDecodeUTF8
  have hb := U8.bytes_toArray (utf8Encode s)
  have hd := utf8Decode_encode s hs
  rcases env with ⟨hB, hTE, hTD⟩
  cases hB <;> cases hTE <;> cases hTD <;>
    simp only [Bool.false_eq_true, if_true, if_false, VSBuffer.new] <;>
    rw [hb, hd]

/-- Witness for C1 at a concrete input: the manual-fallback environment and
the string "hi€😀" (scalars `[0x68, 0x69, 0x20AC, 0x1F600]`). -/
theorem C1_fromString_toString_roundtrip_witness :
    VSBuffer.toString ⟨false, false, false⟩
      (VSBuffer.fromString ⟨false, false, false⟩ [0x68, 0x69, 0x20AC, 0x1F600]).1
      (VSBuffer.fromString ⟨false, false, false⟩ [0x68, 0x69, 0x20AC, 0x1F600]).2
      = [0x68, 0x69, 0x20AC, 0x1F600]
    ∧ bufferFromStringBytes [0x68, 0x69, 0x20AC, 0x1F600]
      = textEncoderEncode [0x68, 0x69, 0x20AC, 0x1F600]
    ∧ textEncoderEncode [0x68, 0x69, 0x20AC, 0x1F600]
      = stringsEncodeUTF8 [0x68, 0x69, 0x20AC, 0x1F600] :=
  C1_fromString_toString_roundtrip ⟨false, false, false⟩
    [0x68, 0x69, 0x20AC, 0x1F600] (by decide)

/-! ## The handle invariant, the stream adapter and the frame of `set` -/

/-- C8: `byteLength == buffer.byteLength` is established by the private
constructor and by each producer (`alloc`, `wrap`, `fromString`, `concat`,
`slice`), and the mutating operations (`set` and the integer writers)
rewrite bytes in place without resizing any backing store. -/
theorem C8_length_invariant :
    (∀ a : U8, (VSBuffer.new a).byteLength = (VSBuffer.new a).buffer.byteLength)
    ∧ (∀ n init, ((VSBuffer.alloc n init).2).byteLength
        = ((VSBuffer.alloc n init).2).buffer.byteLength
        ∧ ((VSBuffer.alloc n init).1).size = ((VSBuffer.alloc n init).2).buffer.byteLength)
    ∧ (∀ a, (VSBuffer.wrap a).byteLength = (VSBuffer.wrap a).buffer.byteLength)
    ∧ (∀ env s, ((VSBuffer.fromString env s).2).byteLength
        = ((VSBuffer.fromString env s).2).buffer.byteLength)
    ∧ (∀ bs t init, ((VSBuffer.concat bs t init).2).byteLength
        = ((VSBuffer.concat bs t init).2).buffer.byteLength)
    ∧ (∀ b start stop, (VSBuffer.slice b start stop).byteLength
        = (VSBuffer.slice b start stop).buffer.byteLength)
    ∧ (∀ σd bt σs arr off, (VSBuffer.set σd bt σs arr off).size = σd.size)
    ∧ (∀ σ d v off, (writeUInt32BE σ d v off).size = σ.size)
    ∧ (∀ σ d v off, (writeUInt8 σ d v off).size = σ.size) := by
  refine ⟨fun a => rfl, fun n init => ⟨rfl, by simp [VSBuffer.alloc, VSBuffer.new]⟩, fun a => rfl,
    fun env s => ?_, fun bs t init => rfl, fun b start stop => rfl,
    fun σd bt σs arr off => U8.setArr_size _ _ _ _ _,
    fun σ d v off => writeUInt32BE_size _ _ _ _,
    fun σ d v off => writeUInt8_size _ _ _ _⟩
  unfold VSBuffer.fromString
  split
  · rfl
  · split
    · rfl
    · rfl

/-- C9: `streamToBuffer` rejects (with no buffer in the result) exactly when
the stream signals an error, whatever chunks were delivered before it; it
resolves with the concatenation of all delivered chunks when the stream
ends without error. -/
theorem C9_streamToBuffer_error_or_concat (stream : PushStream) (init : Nat → Nat) :
    (stream.terminal = StreamTerminal.errored →
      streamToBuffer stream init = Except.error ())
    ∧ (stream.terminal = StreamTerminal.ended →
      streamToBuffer stream init = Except.ok (VSBuffer.concat stream.chunks none init)) := by
  unfold streamToBuffer consumeStream
  constructor <;> intro h <;> rw [h]

/-- Witness for C9 at a concrete input: a stream delivering one 1-byte chunk
and then an error signal rejects. -/
theorem C9_streamToBuffer_error_or_concat_witness :
    streamToBuffer
      { chunks := [((VSBuffer.alloc 1 (fun _ => 7)).1, (VSBuffer.alloc 1 (fun _ => 7)).2)],
        terminal := StreamTerminal.errored } (fun _ => 0) = Except.error () :=
  (C9_streamToBuffer_error_or_concat _ _).1 rfl

/-- C10: `d.set(s, offset)` changes no byte of `d` outside
`[offset, offset + s.byteLength)`. -/
theorem C10_set_frame (σd : Store) (d : VSBuffer) (σs : Store) (s : VSBuffer)
    (off : Nat) (hwfd : VSBuffer.WF σd d) (hwfs : VSBuffer.WF σs s)
    (hfit : off + s.byteLength ≤ d.byteLength) :
    ∀ j, j < d.byteLength → (j < off ∨ off + s.byteLength ≤ j) →
      U8.get (VSBuffer.set σd d σs s off) d.buffer j = U8.get σd d.buffer j := by
  intro j hj hout
  unfold VSBuffer.set
  rw [U8.get_setArr σd d.buffer σs s.buffer off hwfd.1
      (by rw [← hwfs.2, ← hwfd.2]; omega) j,
    if_neg (by rw [← hwfs.2]; omega)]

/-- Witness for C10 at a concrete input: copying a 1-byte buffer into a
3-byte buffer at offset 1 leaves byte 0 unchanged. -/
theorem C10_set_frame_witness :
    U8.get (VSBuffer.set (VSBuffer.alloc 3 (fun _ => 9)).1 (VSBuffer.alloc 3 (fun _ => 9)).2
        (VSBuffer.alloc 1 (fun _ => 5)).1 (VSBuffer.alloc 1 (fun _ => 5)).2 1)
      ((VSBuffer.alloc 3 (fun _ => 9)).2).buffer 0
    = U8.get (VSBuffer.alloc 3 (fun _ => 9)).1 ((VSBuffer.alloc 3 (fun _ => 9)).2).buffer 0 :=
  C10_set_frame _ _ _ _ 1 (by decide) (by decide) (by decide) 0 (by decide)
    (Or.inl (by decide))

/-! ## Concatenation -/

/-- A byte segment splits at any interior point. -/
theorem U8.seg_add (σ : Store) (a : U8) (off m n : Nat) :
    U8.seg σ a off (m + n) = U8.seg σ a off m ++ U8.seg σ a (off + m) n := by
  unfold U8.seg
  rw [List.range_add, List.map_append, List.map_map]
  congr 1
  apply List.map_congr_left
  intro k hk
  simp only [Function.comp]
  congr 1
  omega

/-- The segment covering a whole view is its byte contents. -/
theorem U8.seg_zero_bytes (σ : Store) (a : U8) :
    U8.seg σ a 0 a.byteLength = U8.bytes σ a := by
  unfold U8.seg U8.bytes
  apply List.map_congr_left
  intro k hk
  rw [Nat.zero_add]

/-- The `totalLength` loop of `concat` computes the sum of the lengths. -/
theorem foldl_byteLength_sum (bs : List (Store × VSBuffer)) :
    bs.foldl (fun acc b => acc + b.2.byteLength) 0
      = (bs.map (fun p => p.2.byteLength)).sum := by
  have h : ∀ a, bs.foldl (fun acc b => acc + b.2.byteLength) a
      = a + (bs.map (fun p => p.2.byteLength)).sum := by
    induction bs with
    | nil => simp
    | cons q qs ih =>
      intro a
      simp only [List.foldl_cons, List.map_cons, List.sum_cons, ih]
      omega
  simpa using h 0

/-- The copy loop of `concat`: it never resizes the destination store,
leaves everything below the starting offset untouched, and lays the input
buffers' bytes back to back from the starting offset. -/
theorem concatFold_spec (d : U8) (bs : List (Store × VSBuffer)) (σ0 : Store) (off : Nat)
    (hwfd : U8.WF σ0 d)
    (hfit : off + (bs.map (fun p => p.2.byteLength)).sum ≤ d.byteLength)
    (hbs : ∀ p ∈ bs, VSBuffer.WF p.1 p.2 ∧ Store.Bytes p.1) :
    (concatFold d bs σ0 off).1.size = σ0.size
    ∧ (∀ j, j < off → U8.get (concatFold d bs σ0 off).1 d j = U8.get σ0 d j)
    ∧ U8.seg (concatFold d bs σ0 off).1 d off (bs.map (fun p => p.2.byteLength)).sum
        = (bs.map (fun p => U8.bytes p.1 p.2.buffer)).flatten := by
  induction bs generalizing σ0 off with
  | nil =>
    refine ⟨rfl, fun j hj => rfl, ?_⟩
    unfold U8.seg
    simp
  | cons q qs ih =>
    obtain ⟨hqwf, hqbytes⟩ := hbs q (List.mem_cons_self q qs)
    have hlen_q : q.2.byteLength = q.2.buffer.byteLength := hqwf.2
    have hsum : ((q :: qs).map (fun p => p.2.byteLength)).sum
        = q.2.byteLength + ((qs.map (fun p => p.2.byteLength)).sum) := by
      simp
    have hstep : concatFold d (q :: qs) σ0 off
        = concatFold d qs (U8.setArr σ0 d q.1 q.2.buffer off) (off + q.2.byteLength) := rfl
    have hwfd1 : U8.WF (U8.setArr σ0 d q.1 q.2.buffer off) d := by
      unfold U8.WF at hwfd ⊢
      rw [U8.setArr_size]
      exact hwfd
    have hfit_q : off + q.2.buffer.byteLength ≤ d.byteLength := by
      rw [hsum] at hfit
      omega
    have hfit1 : (off + q.2.byteLength) + (qs.map (fun p => p.2.byteLength)).sum
        ≤ d.byteLength := by
      rw [hsum] at hfit
      omega
    obtain ⟨hsize, hframe, hseg⟩ :=
      ih (U8.setArr σ0 d q.1 q.2.buffer off) (off + q.2.byteLength) hwfd1 hfit1
        (fun p hp => hbs p (List.mem_cons_of_mem q hp))
    rw [hstep, hsum]
    refine ⟨by rw [hsize, U8.setArr_size], ?_, ?_⟩
    · intro j hj
      rw [hframe j (by omega),
        U8.get_setArr σ0 d q.1 q.2.buffer off hwfd hfit_q j,
        if_neg (by omega)]
    · rw [U8.seg_add]
      have hA : U8.seg (concatFold d qs (U8.setArr σ0 d q.1 q.2.buffer off)
            (off + q.2.byteLength)).1 d off q.2.byteLength
          = U8.bytes q.1 q.2.buffer := by
        unfold U8.seg U8.bytes
        rw [← hlen_q]
        apply List.map_congr_left
        intro k hk
        have hk' : k < q.2.byteLength := List.mem_range.mp hk
        rw [hframe (off + k) (by omega),
          U8.get_setArr σ0 d q.1 q.2.buffer off hwfd hfit_q (off + k),
          if_pos (by omega)]
        have hidx : off + k - off = k := by omega
        rw [hidx]
        unfold toUint8
        exact Nat.mod_eq_of_lt (U8.get_lt q.1 q.2.buffer k hqbytes)
      rw [hA, hseg]
      simp

/-- C2: `concat` with `totalLength` omitted returns a buffer whose
`byteLength` is the sum of the inputs' `byteLength`s and whose bytes are the
inputs' bytes back to back in order, whatever the allocator's uninitialised
content; the empty sequence gives the empty sum `0`. -/
theorem C2_concat (bs : List (Store × VSBuffer)) (init : Nat → Nat)
    (hbs : ∀ p ∈ bs, VSBuffer.WF p.1 p.2 ∧ Store.Bytes p.1) :
    ((VSBuffer.concat bs none init).2).byteLength
        = (bs.map (fun p => p.2.byteLength)).sum
    ∧ U8.bytes (VSBuffer.concat bs none init).1 ((VSBuffer.concat bs none init).2).buffer
        = (bs.map (fun p => U8.bytes p.1 p.2.buffer)).flatten := by
  have hT := foldl_byteLength_sum bs
  have hconcat : VSBuffer.concat bs none init
      = ((concatFold
            ((VSBuffer.alloc (bs.foldl (fun acc b => acc + b.2.byteLength) 0) init).2).buffer
            bs
            (VSBuffer.alloc (bs.foldl (fun acc b => acc + b.2.byteLength) 0) init).1 0).1,
         (VSBuffer.alloc (bs.foldl (fun acc b => acc + b.2.byteLength) 0) init).2) := rfl
  set T := bs.foldl (fun acc b => acc + b.2.byteLength) 0 with hTdef
  have hview : ((VSBuffer.alloc T init).2).buffer
      = { byteOffset := 0, byteLength := T } := rfl
  have hwfd : U8.WF (VSBuffer.alloc T init).1 ((VSBuffer.alloc T init).2).buffer := by
    unfold U8.WF VSBuffer.alloc VSBuffer.new
    simp
  obtain ⟨hsize, hframe, hseg⟩ :=
    concatFold_spec ((VSBuffer.alloc T init).2).buffer bs (VSBuffer.alloc T init).1 0
      hwfd (by rw [hview]; simpa using hT.symm.le) hbs
  constructor
  · rw [hconcat]
    simpa using hT
  · rw [hconcat]
    have hlen : ((VSBuffer.alloc T init).2).buffer.byteLength
        = (bs.map (fun p => p.2.byteLength)).sum := by
      rw [hview]
      simpa using hT
    rw [← U8.seg_zero_bytes, hlen]
    exact hseg

/-- Witness for C2 at a concrete input: concatenating the buffers
`[1, 2]` and `[3]` gives a 3-byte buffer holding `[1, 2, 3]`. -/
theorem C2_concat_witness :
    ((VSBuffer.concat
        [((VSBuffer.alloc 2 (fun i => i + 1)).1, (VSBuffer.alloc 2 (fun i => i + 1)).2),
         ((VSBuffer.alloc 1 (fun _ => 3)).1, (VSBuffer.alloc 1 (fun _ => 3)).2)]
        none (fun _ => 0)).2).byteLength
      = ([((VSBuffer.alloc 2 (fun i => i + 1)).1, (VSBuffer.alloc 2 (fun i => i + 1)).2),
          ((VSBuffer.alloc 1 (fun _ => 3)).1, (VSBuffer.alloc 1 (fun _ => 3)).2)].map
          (fun p => p.2.byteLength)).sum
    ∧ U8.bytes
        (VSBuffer.concat
          [((VSBuffer.alloc 2 (fun i => i + 1)).1, (VSBuffer.alloc 2 (fun i => i + 1)).2),
           ((VSBuffer.alloc 1 (fun _ => 3)).1, (VSBuffer.alloc 1 (fun _ => 3)).2)]
          none (fun _ => 0)).1
        ((VSBuffer.concat
          [((VSBuffer.alloc 2 (fun i => i + 1)).1, (VSBuffer.alloc 2 (fun i => i + 1)).2),
           ((VSBuffer.alloc 1 (fun _ => 3)).1, (VSBuffer.alloc 1 (fun _ => 3)).2)]
          none (fun _ => 0)).2).buffer
      = ([((VSBuffer.alloc 2 (fun i => i + 1)).1, (VSBuffer.alloc 2 (fun i => i + 1)).2),
          ((VSBuffer.alloc 1 (fun _ => 3)).1, (VSBuffer.alloc 1 (fun _ => 3)).2)].map
          (fun p => U8.bytes p.1 p.2.buffer)).flatten :=
  C2_concat
    [((VSBuffer.alloc 2 (fun i => i + 1)).1, (VSBuffer.alloc 2 (fun i => i + 1)).2),
     ((VSBuffer.alloc 1 (fun _ => 3)).1, (VSBuffer.alloc 1 (fun _ => 3)).2)]
    (fun _ => 0)
    (by
      intro p hp
      rcases List.mem_cons.mp hp with h | h
      · subst h
        exact ⟨by decide, by decide⟩
      · rcases List.mem_cons.mp h with h2 | h2
        · subst h2
          exact ⟨by decide, by decide⟩
        · cases h2)

/-! ## Slicing -/

/-- A view has as many bytes as its length. -/
theorem U8.bytes_length (σ : Store) (a : U8) : (U8.bytes σ a).length = a.byteLength := by
  unfold U8.bytes
  simp

/-- C6: for `start ≤ stop ≤ b.byteLength`, `b.slice(start, stop)` has
`byteLength = stop - start` and its bytes are `b`'s bytes in
`[start, stop)`; the result is an aliasing view, not a copy: a byte written
through the slice is read back through `b` and vice versa (both sides see
`v mod 256`, the stored byte). -/
theorem C6_slice (σ : Store) (b : VSBuffer) (start stop : Nat)
    (hwf : VSBuffer.WF σ b) (hse : start ≤ stop) (hstop : stop ≤ b.byteLength) :
    (b.slice start stop).byteLength = stop - start
    ∧ U8.bytes σ (b.slice start stop).buffer
        = ((U8.bytes σ b.buffer).drop start).take (stop - start)
    ∧ (∀ i v, i < stop - start →
        U8.get (writeUInt8 σ (b.slice start stop).buffer v i) b.buffer (start + i)
          = v % 256
        ∧ U8.get (writeUInt8 σ b.buffer v (start + i)) (b.slice start stop).buffer i
          = v % 256) := by
  have hlen : b.buffer.byteLength = b.byteLength := hwf.2.symm
  have hview : (b.slice start stop).buffer
      = { byteOffset := b.buffer.byteOffset + start, byteLength := stop - start } := by
    unfold VSBuffer.slice VSBuffer.new U8.subarray
    simp only
    congr 1
    · omega
    · omega
  have hsz : b.buffer.byteOffset + b.buffer.byteLength ≤ σ.size := hwf.1
  refine ⟨congrArg U8.byteLength hview, ?_, ?_⟩
  · rw [hview]
    apply List.ext_getElem
    · rw [U8.bytes_length]
      simp only [List.length_take, List.length_drop, U8.bytes_length]
      omega
    · intro i h1 h2
      have hi : i < stop - start := by
        rw [U8.bytes_length] at h1
        exact h1
      rw [List.getElem_take, List.getElem_drop]
      unfold U8.bytes
      simp only [List.getElem_map, List.getElem_range]
      unfold U8.get
      dsimp only
      rw [if_pos hi, if_pos (show start + i < b.buffer.byteLength by omega)]
      congr 1
      omega
  · intro i v hi
    rw [hview]
    unfold writeUInt8 U8.set1 U8.get
    dsimp only
    have hlt1 : start + i < b.buffer.byteLength := by omega
    have hc1 : b.buffer.byteOffset + (start + i) = b.buffer.byteOffset + start + i
        ∧ b.buffer.byteOffset + start + i < σ.size := ⟨by omega, by omega⟩
    have hc2 : b.buffer.byteOffset + start + i = b.buffer.byteOffset + (start + i)
        ∧ b.buffer.byteOffset + (start + i) < σ.size := ⟨by omega, by omega⟩
    constructor
    · rw [if_pos hi, if_pos hlt1, store_getD_setD, if_pos hc1]
      rfl
    · rw [if_pos hlt1, if_pos hi, store_getD_setD, if_pos hc2]
      rfl

/-- Witness for C6 at a concrete input: slicing `[10, 20, 30]` over
`[1, 3)` gives 2 bytes, and a write through the slice at index 0 is read
back through the original buffer at index 1, and conversely. -/
theorem C6_slice_witness :
    ((VSBuffer.alloc 3 (fun i => 10 * (i + 1))).2.slice 1 3).byteLength = 3 - 1
    ∧ (U8.get
        (writeUInt8 (VSBuffer.alloc 3 (fun i => 10 * (i + 1))).1
          ((VSBuffer.alloc 3 (fun i => 10 * (i + 1))).2.slice 1 3).buffer 300 0)
        ((VSBuffer.alloc 3 (fun i => 10 * (i + 1))).2).buffer (1 + 0) = 300 % 256
      ∧ U8.get
        (writeUInt8 (VSBuffer.alloc 3 (fun i => 10 * (i + 1))).1
          ((VSBuffer.alloc 3 (fun i => 10 * (i + 1))).2).buffer 300 (1 + 0))
        ((VSBuffer.alloc 3 (fun i => 10 * (i + 1))).2.slice 1 3).buffer 0 = 300 % 256) :=
  ⟨(C6_slice (VSBuffer.alloc 3 (fun i => 10 * (i + 1))).1
      (VSBuffer.alloc 3 (fun i => 10 * (i + 1))).2 1 3
      (by decide) (by decide) (by decide)).1,
   (C6_slice (VSBuffer.alloc 3 (fun i => 10 * (i + 1))).1
      (VSBuffer.alloc 3 (fun i => 10 * (i + 1))).2 1 3
      (by decide) (by decide) (by decide)).2.2 0 300 (by decide)⟩
